import Mathlib

/-!
Verification development for the `gdata_array` worksheet-cache module
(`gdata_array.py`).  The Python data model and operations are shallowly
embedded as executable Lean definitions: cell slots become `Option CellV`,
remote calls become explicit `Except`-valued parameters (the outcome the
remote store would produce), and each operation returns the resulting local
state together with the error it would raise, so that partial mutation
before an exception is represented faithfully.
-/

namespace GdataArray

/-- A value held in one slot of a `Row`'s backing list.  Normally this is a
`Cell` object (`Cell(str)` wrapping text plus 1-based coordinates, source
lines 743-755); `Worksheet.append` can also store a plain string into a slot
via `Row._set_local(val.icol, val.val)` (source line 567), which we model as
`raw`.  Python compares cells with strings by content, so content equality
looks through the constructor. -/
inductive CellV where
  | cell (text : String) (row : Nat) (col : Nat)
  | raw (s : String)
deriving DecidableEq, Repr

/-- The string content a slot value carries (a `Cell` is a `str` subclass
whose content is the cell text, with `None` text already mapped to `""` in
`Cell.__new__`). -/
def cellText : CellV → String
  | .cell t _ _ => t
  | .raw s => s

/-- A `Row` (source lines 645-741): 1-based row number plus the sparse list
of slots.  The worksheet back-reference is passed explicitly where needed. -/
structure RowM where
  num : Nat
  cells : List (Option CellV)
deriving DecidableEq, Repr

/-- Removes trailing `None` slots, modelling
`while (self and self[-1] == None): self.pop(-1)` (source line 734); note a
`Cell` with empty text is not `== None`, so only genuine `None` slots go. -/
def dropTrailingNone : List (Option α) → List (Option α)
  | [] => []
  | x :: xs =>
    match dropTrailingNone xs with
    | [] => match x with
            | none => []
            | some a => [some a]
    | y :: ys => x :: y :: ys

/-- Pads a slot list with `None` up to length `n`, modelling
`while (len(self) <= icol): super(Row, self).append(None)` inside
`Row._set_local` (source lines 703-706). -/
def padTo (l : List (Option α)) (n : Nat) : List (Option α) :=
  l ++ List.replicate (n - l.length) none

/-- `Row._set_local(icol, v)` (source lines 703-706): pad to `icol + 1`
slots, then overwrite slot `icol`. -/
def setPad (l : List (Option α)) (i : Nat) (v : Option α) : List (Option α) :=
  (padTo l (i + 1)).set i v

/-- `Row._set_local` lifted to a `RowM`. -/
def rowSetLocal (r : RowM) (icol : Nat) (v : Option CellV) : RowM :=
  ⟨r.num, setPad r.cells icol v⟩

/-- Reading slot `i`: `if (len(self) > ind): item else None`
(`Row.__getitem__`, source lines 690-695). -/
def rowGetCell (r : RowM) (i : Nat) : Option CellV :=
  r.cells.getD i none

/-- The text value slot `i` holds, with the absent slot reading as the empty
string (an absent cell and an empty cell both display as `''`). -/
def rowTextAt (r : RowM) (i : Nat) : String :=
  match rowGetCell r i with
  | some v => cellText v
  | none => ""

/-- Normalization performed at the top of `Row.__setitem__` (source lines
713-716): `None` becomes `''`, any other value its display string (all
values in this model are already strings). -/
def normVal : Option String → String
  | none => ""
  | some s => s

/-- The comparison `new_val == self[icol]` (source line 720): a plain string
never equals Python `None`, and equals a `Cell`/`str` slot exactly when the
contents agree. -/
def pyCellEq (nv : String) (cur : Option CellV) : Bool :=
  match cur with
  | some c => decide (nv = cellText c)
  | none => false

/-- Result of a `Row.__setitem__` call: whether it raised, the row
afterwards, the worksheet's `_max_col` afterwards, and how many
`UpdateCell` wrapper calls were issued. -/
structure SetOut where
  err : Bool
  row : RowM
  maxCol : Nat
  updCalls : Nat
deriving DecidableEq, Repr

/-- `Row.__setitem__` (source lines 708-737) with the column index already
resolved.  `remote` is the outcome of the `UpdateCell` wrapper (after its
internal retries): `Except.ok echo` carries the text of the cell entry the
service returns.  The remote call strictly precedes every local mutation, so
a raising call leaves the row and `_max_col` untouched. -/
def rowSetItem (r : RowM) (mc : Nat) (icol : Nat) (v : Option String)
    (remote : Except Unit String) : SetOut :=
  let newVal := normVal v
  if pyCellEq newVal (rowGetCell r icol) then
    ⟨false, r, mc, 0⟩
  else
    match remote with
    | .error _ => ⟨true, r, mc, 1⟩
    | .ok echo =>
      let newCell : Option CellV :=
        if newVal = "" then none else some (.cell echo r.num (icol + 1))
      let cells1 := setPad r.cells icol newCell
      let cells2 := dropTrailingNone cells1
      let mc' := if mc < cells2.length then cells2.length else mc
      ⟨false, ⟨r.num, cells2⟩, mc', 1⟩

/-- The fixed sequence of column tags used for blank header slots
(`blank_coltags`, source lines 49-54), reproduced verbatim: 29 entries. -/
def blank_coltags : List String :=
  ["_cn6ca", "_cokwr", "_cpzh4", "_cre1l", "_chk2m",
   "_ciyn3", "_ckd7g", "_clrrx", "_cyevm", "_cztg3",
   "_d180g", "_d2mkx", "_cssly", "_cu76f", "_cvlqs",
   "_cx0b9", "_d9ney", "_db1zf", "_dcgjs", "_ddv49",
   "_d415a", "_d5fpr", "_d6ua4", "_d88ul", "_dkvya",
   "_dmair", "_dnp34", "_dp3nl", "_df9om"]

/-- Characters kept by `re.sub(r'[^a-zA-Z0-9\-]', '', ...)` in
`Worksheet.get_coltags` (source line 415): ASCII letters, digits, hyphen. -/
def isTagChar (c : Char) : Bool :=
  c.isAlpha || c.isDigit || c == '-'

/-- The stripped candidate key derived from one header text. -/
def stripTag (s : String) : String :=
  String.mk (s.data.filter isTagChar)

/-- The candidate key at slot `i` of the tag row (source lines 413-415):
empty when the slot is absent or its text is falsy or strips to nothing. -/
def candAt (cells : List (Option CellV)) (i : Nat) : String :=
  match cells.getD i none with
  | some v => if cellText v = "" then "" else stripTag (cellText v)
  | none => ""

/-- Lookup in the `collections.defaultdict(int)` occurrence counter. -/
def cntGet : List (String × Nat) → String → Nat
  | [], _ => 0
  | p :: t, k => if k = p.1 then p.2 else cntGet t k

/-- Increment in the occurrence counter (`count[key] += 1`). -/
def cntInc : List (String × Nat) → String → List (String × Nat)
  | [], k => [(k, 1)]
  | p :: t, k => if k = p.1 then (p.1, p.2 + 1) :: t else p :: cntInc t k

/-- Decimal digit character, as produced by Python `'%d'` formatting. -/
def digitCh (n : Nat) : Char :=
  Char.ofNat (48 + n)

/-- Decimal digit string of a natural number, modelling `'%d' % n`. -/
def natChars (n : Nat) : List Char :=
  if _h : n < 10 then [digitCh n]
  else natChars (n / 10) ++ [digitCh (n % 10)]
decreasing_by exact Nat.div_lt_self (by omega) (by omega)

/-- String form of `natChars`. -/
def natStr (n : Nat) : String :=
  String.mk (natChars n)

/-- The `get_coltags` loop body (source lines 412-422), iterating slots
`i, i+1, ...` for `fuel` steps with occurrence counter `cnt`.  A slot whose
candidate is empty falls back to `blank_coltags[i]`, which raises
`IndexError` (`Except.error`) when `i` is outside the 29-entry table. -/
def coltagsGo (cells : List (Option CellV)) :
    Nat → Nat → List (String × Nat) → Except Unit (List String)
  | _, 0, _ => .ok []
  | i, fuel + 1, cnt =>
    let cand := candAt cells i
    if cand = "" then
      match blank_coltags.get? i with
      | some b =>
        match coltagsGo cells (i + 1) fuel cnt with
        | .ok l => .ok (b :: l)
        | .error e => .error e
      | none => .error ()
    else
      let c := cntGet cnt cand + 1
      let key := if 1 < c then cand ++ "_" ++ natStr c else cand
      match coltagsGo cells (i + 1) fuel (cntInc cnt cand) with
      | .ok l => .ok (key :: l)
      | .error e => .error e

/-- A loaded `Worksheet`'s cache state (source lines 288-589): header rows
(`_header_rows`), data rows (`_rows`), the running `_max_col`, and the
list-feed entries.  Each list-feed entry is modelled as the values of its
`custom` mapping (cell text, `none` for a missing text).  `listFeed` stands
for an already-fetched `_list_feed`; the lazy fetch itself (and its
blank-row whitespace workaround, source lines 374-394) happens before the
operations modelled here run. -/
structure WS where
  nheaders : Nat
  headerRows : List RowM
  rows : List RowM
  maxCol : Nat
  listFeed : List (List (Option String))
deriving DecidableEq, Repr

/-- Number of slots `get_coltags` produces:
`max(self.max_col, len(blank_coltags))` (source line 412). -/
def wsNumSlots (ws : WS) : Nat :=
  max ws.maxCol blank_coltags.length

/-- The row `get_coltags` reads its header texts from: `self.get_row(1)`
(source line 411), which is `header_rows[0]` whenever `1 <= nheaders`, and
`rows[0]` otherwise (source lines 492-500). -/
def wsTagRow (ws : WS) : Option RowM :=
  if 1 ≤ ws.nheaders then ws.headerRows.get? 0 else ws.rows.get? 0

/-- `Worksheet.get_coltags` (source lines 397-423). -/
def wsColtags (ws : WS) : Except Unit (List String) :=
  match wsTagRow ws with
  | some r => coltagsGo r.cells 0 (wsNumSlots ws) []
  | none => .error ()

/-- Modelled from the spec, for comparison only: column keys derived from
the worksheet's `headers` property, i.e. from the last header row
`header_rows[-1]` ("`column_keys` ... feeds header row texts" of
"`headers` ...: returns `header_rows[-1]`"). -/
def coltagsFromLastHeader (ws : WS) : Except Unit (List String) :=
  match ws.headerRows.getLast? with
  | some r => coltagsGo r.cells 0 (wsNumSlots ws) []
  | none => .error ()

/-- One entry of the cells feed: 1-based row and column plus the text
(`None` text already normalized to `""` as `Cell.__new__` does). -/
structure FeedCell where
  row : Nat
  col : Nat
  text : String
deriving DecidableEq, Repr

/-- In-place update of list element `i` when it exists (Python mutates the
object held at that index). -/
def modifyAt (l : List RowM) (i : Nat) (f : RowM → RowM) : List RowM :=
  match l.get? i with
  | some r => l.set i (f r)
  | none => l

/-- Appends fresh empty `Row`s numbered `len+1 .. target` (the header-row
synthesis loops at source lines 360-361 and 368-370). -/
def padHeaderRows (hrs : List RowM) (target : Nat) : List RowM :=
  hrs ++ (List.range (target - hrs.length)).map (fun j => ⟨hrs.length + 1 + j, []⟩)

/-- `Worksheet.init_cell` (source lines 469-481): synthesize blank data rows
numbered `max_row+1 .. row_num` (where `max_row = len(rows) + nheaders`),
then place the cell at `(row_num - nheaders - 1, col_num - 1)` and update
`_max_col`. -/
def initCellM (nh : Nat) (rows : List RowM) (mc : Nat) (c : FeedCell) :
    List RowM × Nat :=
  let maxRow := rows.length + nh
  let rows1 := rows ++ (List.range (c.row - maxRow)).map (fun j => ⟨maxRow + 1 + j, []⟩)
  let rows2 := modifyAt rows1 (c.row - nh - 1)
      (fun r => rowSetLocal r (c.col - 1) (some (.cell c.text c.row c.col)))
  (rows2, if mc < c.col then c.col else mc)

/-- One iteration of the `get_cells_feed` loop (source lines 353-366): a
cell with `row <= nheaders` goes into the header rows (synthesizing missing
ones, without touching `_max_col`); any other cell goes through
`init_cell`. -/
def loadStep (nh : Nat) (st : List RowM × List RowM × Nat) (c : FeedCell) :
    List RowM × List RowM × Nat :=
  let (hrs, rows, mc) := st
  if c.row ≤ nh then
    let hrs1 := padHeaderRows hrs c.row
    (modifyAt hrs1 (c.row - 1)
        (fun r => rowSetLocal r (c.col - 1) (some (.cell c.text c.row c.col))),
     rows, mc)
  else
    let (rows', mc') := initCellM nh rows mc c
    (hrs, rows', mc')

/-- `Worksheet.get_cells_feed` population (source lines 338-372): fold the
feed entries, then make sure `nheaders` header rows exist.  `lf` is the
content a later `get_list_feed` fetch returns. -/
def loadData (nh : Nat) (feed : List FeedCell) (lf : List (List (Option String))) : WS :=
  let st := feed.foldl (loadStep nh) ([], [], 0)
  ⟨nh, padHeaderRows st.1 nh, st.2.1, st.2.2, lf⟩

/-- The contiguity invariant claimed for data rows:
`data_rows[i].row_number == header_count + i + 1` for every index. -/
def rowNumsOk (ws : WS) : Bool :=
  (List.range ws.rows.length).all
    (fun i => (ws.rows.getD i ⟨0, []⟩).num = ws.nheaders + i + 1)

/-- A `RowDataVal` (source lines 633-641): column index, normalized value
string, and the coltag assigned afterwards (still `None` for slots whose
value is falsy, see the assignment loop at source lines 612-614). -/
structure RDV where
  icol : Nat
  val : String
  coltag : Option String
deriving DecidableEq, Repr

/-- `RowData.__init__` for a sequence input (source lines 610-614): one
`RowDataVal` per position, then `coltags[i]` is attached to every entry
`i` that is in range and truthy (empty values keep `coltag = None`).  The
mapping-input branch (source lines 601-608) is not modelled; no claim
exercises it. -/
def rdOfSeq (vals : List (Option String)) (coltags : List String) : List RDV :=
  vals.enum.map (fun p =>
    let s := normVal p.2
    ⟨p.1, s, if s = "" then none else coltags.get? p.1⟩)

/-- `RowData.is_blank` (source lines 630-631). -/
def rdIsBlank (rd : List RDV) : Bool :=
  rd.all (fun v => v.val = "")

/-- `RowData.get_insert_vals` (source lines 616-627).  When every value is
falsy and coltags exist, the source assigns into the undefined local name
`insert_vals` (line 626), so the call raises `NameError`; this is modelled
as `Except.error`. -/
def getInsertVals (rd : List RDV) (ct : List String) : Except Unit (List (String × String)) :=
  let vals := rd.foldl
    (fun acc v =>
      match v.coltag with
      | some t => if v.val = "" then acc else acc ++ [(t, v.val)]
      | none => acc) []
  if vals.isEmpty && !ct.isEmpty then .error () else .ok vals

/-- Outcome of `Worksheet.append`. -/
inductive AppErr where
  | coltags
  | name
  | insert
  | upd
deriving DecidableEq, Repr

/-- Result of a `Worksheet.append` call: the error it raises (if any), the
worksheet state at that point, and how many `InsertRow` / `UpdateCell`
wrapper calls were issued. -/
structure AppOut where
  err : Option AppErr
  ws : WS
  insertCalls : Nat
  updCalls : Nat
deriving DecidableEq, Repr

/-- The blank-header-fill loop of `append` (source lines 544-548): walk the
header rows, writing `' '` into cell 0 of every empty one via the coherent
`Row.__setitem__`; record which positions were filled.  Returns the new
header rows, `_max_col`, next oracle index, filled positions, and whether a
write raised (aborting the walk). -/
def fbGo (oracle : Nat → Except Unit String) :
    List RowM → Nat → Nat → Nat → List RowM × Nat × Nat × List Nat × Bool
  | [], _, mc, cIdx => ([], mc, cIdx, [], false)
  | r :: rs, pos, mc, cIdx =>
    if r.cells.isEmpty then
      let out := rowSetItem r mc 0 (some " ") (oracle cIdx)
      if out.err then (out.row :: rs, out.maxCol, cIdx + 1, [pos], true)
      else
        let rest := fbGo oracle rs (pos + 1) out.maxCol (cIdx + 1)
        (out.row :: rest.1, rest.2.1, rest.2.2.1, pos :: rest.2.2.2.1, rest.2.2.2.2)
    else
      let rest := fbGo oracle rs (pos + 1) mc cIdx
      (r :: rest.1, rest.2.1, rest.2.2.1, rest.2.2.2.1, rest.2.2.2.2)

/-- The blank-header restore loop of `append` (source line 554): write
`None` back into cell 0 of each previously filled header row. -/
def restoreGo (oracle : Nat → Except Unit String) :
    List Nat → List RowM → Nat → Nat → List RowM × Nat × Nat × Bool
  | [], hrs, mc, cIdx => (hrs, mc, cIdx, false)
  | p :: ps, hrs, mc, cIdx =>
    match hrs.get? p with
    | some r =>
      let out := rowSetItem r mc 0 none (oracle cIdx)
      let hrs' := hrs.set p out.row
      if out.err then (hrs', out.maxCol, cIdx + 1, true)
      else restoreGo oracle ps hrs' out.maxCol (cIdx + 1)
    | none => (hrs, mc, cIdx, true)

/-- The forced-creation loop of `append` (source lines 563-567): for each
supplied value, either a coherent write into the freshly appended last row
(when `overwrite` holds, the value is truthy and its coltag is absent from
the insert response), or a local `_set_local` of the plain string. -/
def valsGo (oracle : Nat → Except Unit String) (ov : Bool) (resCustom : List String) :
    List RDV → List RowM → Nat → Nat → List RowM × Nat × Nat × Bool
  | [], rows, mc, cIdx => (rows, mc, cIdx, false)
  | v :: rest, rows, mc, cIdx =>
    let last := rows.length - 1
    match rows.get? last with
    | none => (rows, mc, cIdx, true)
    | some r =>
      if ov && !(v.val = "") &&
         (match v.coltag with
          | none => true
          | some t => !(resCustom.contains t)) then
        let out := rowSetItem r mc v.icol (some v.val) (oracle cIdx)
        let rows' := rows.set last out.row
        if out.err then (rows', out.maxCol, cIdx + 1, true)
        else valsGo oracle ov resCustom rest rows' out.maxCol (cIdx + 1)
      else
        valsGo oracle ov resCustom rest
          (rows.set last (rowSetLocal r v.icol (some (.raw v.val)))) mc cIdx

/-- The trailing blank-row cleanup of `append` (source line 569):
`self[-1][0] = None`. -/
def valsClear (oracle : Nat → Except Unit String) (rows : List RowM) (mc cIdx : Nat) :
    List RowM × Nat × Nat × Bool :=
  match rows.get? (rows.length - 1) with
  | none => (rows, mc, cIdx, true)
  | some r =>
    let out := rowSetItem r mc 0 none (oracle cIdx)
    (rows.set (rows.length - 1) out.row, out.maxCol, cIdx + 1, out.err)

/-- `Worksheet.append` (source lines 527-569).  `oracle` supplies the
outcome of each successive `UpdateCell` wrapper call, `insertRes` the
outcome of `InsertRow` (`ok` carrying the coltags present in the response's
`custom` mapping).  Mutations performed before an exception persist in the
returned state, as in Python. -/
def wsAppend (ws : WS) (vals : List (Option String)) (ov : Bool)
    (oracle : Nat → Except Unit String) (insertRes : Except Unit (List String)) : AppOut :=
  match wsColtags ws with
  | .error _ => ⟨some .coltags, ws, 0, 0⟩
  | .ok ct =>
    let rd := rdOfSeq vals ct
    let fb := fbGo oracle ws.headerRows 0 ws.maxCol 0
    let ws1 : WS := ⟨ws.nheaders, fb.1, ws.rows, fb.2.1, ws.listFeed⟩
    if fb.2.2.2.2 then ⟨some .upd, ws1, 0, fb.2.2.1⟩
    else
      match getInsertVals rd ct with
      | .error _ => ⟨some .name, ws1, 0, fb.2.2.1⟩
      | .ok _ =>
        match insertRes with
        | .error _ => ⟨some .insert, ws1, 1, fb.2.2.1⟩
        | .ok resCustom =>
          let rs := restoreGo oracle fb.2.2.2.1 ws1.headerRows ws1.maxCol fb.2.2.1
          let ws2 : WS := ⟨ws.nheaders, rs.1, ws.rows, rs.2.1, ws.listFeed⟩
          if rs.2.2.2 then ⟨some .upd, ws2, 1, rs.2.2.1⟩
          else
            let newRow : RowM := ⟨ws2.rows.length + ws.nheaders + 1, []⟩
            let rows1 := ws2.rows ++ [newRow]
            let vg := valsGo oracle ov resCustom rd rows1 ws2.maxCol rs.2.2.1
            let ws3 : WS := ⟨ws.nheaders, rs.1, vg.1, vg.2.1, ws.listFeed⟩
            if vg.2.2.2 then ⟨some .upd, ws3, 1, vg.2.2.1⟩
            else if rdIsBlank rd then
              let vc := valsClear oracle vg.1 vg.2.1 vg.2.2.1
              ⟨if vc.2.2.2 then some .upd else none,
               ⟨ws.nheaders, rs.1, vc.1, vc.2.1, ws.listFeed⟩, 1, vc.2.2.1⟩
            else ⟨none, ws3, 1, vg.2.2.1⟩

/-- The set of values the local cache holds for a row, as built at source
line 661: `set(self.worksheet._rows[irow] + [None])` — every slot's string
content plus `None`, with Python set semantics collapsing equal contents. -/
def objVals (r : RowM) : List (Option String) :=
  r.cells.map (fun o => o.map cellText) ++ [none]

/-- The set of values the list-feed entry holds, as built at source lines
662-664: `None` plus every truthy `custom` value text. -/
def gdataVals (e : List (Option String)) : List (Option String) :=
  none :: ((e.filterMap id).filter (fun t => !(t = ""))).map some

/-- Python set equality on the two value collections: mutual membership. -/
def pySetEq (a b : List (Option String)) : Bool :=
  a.all (fun x => b.contains x) && b.all (fun x => a.contains x)

/-- The per-row half of the renumbering loop (source lines 678-679):
`for cell in row: if (cell): cell.row -= 1`.  A truthy `Cell` gets its row
decremented; a falsy slot (`None`, or empty text) is skipped; a truthy
plain string stored by `append`'s `_set_local` path has no `row` attribute,
so the loop raises `AttributeError` there — the returned flag — leaving the
remaining cells untouched. -/
def decCells : List (Option CellV) → List (Option CellV) × Bool
  | [] => ([], false)
  | c :: t =>
    match c with
    | some (.cell s r co) =>
      if s = "" then
        let rest := decCells t
        (c :: rest.1, rest.2)
      else
        let rest := decCells t
        (some (.cell s (r - 1) co) :: rest.1, rest.2)
    | some (.raw s) =>
      if s = "" then
        let rest := decCells t
        (c :: rest.1, rest.2)
      else (c :: t, true)
    | none =>
      let rest := decCells t
      (none :: rest.1, rest.2)

/-- The renumbering loop of `Row.delete` (source lines 675-679): for every
index from `start` on, decrement the row number and then each truthy cell's
row coordinate, stopping (with the exception flag) if a cell write
raises. -/
def renumGo : List RowM → Nat → List RowM × Bool
  | [], _ => ([], false)
  | r :: rs, 0 =>
    let dc := decCells r.cells
    let r' : RowM := ⟨r.num - 1, dc.1⟩
    if dc.2 then (r' :: rs, true)
    else
      let rest := renumGo rs 0
      (r' :: rest.1, rest.2)
  | r :: rs, k + 1 =>
    let rest := renumGo rs k
    (r :: rest.1, rest.2)

/-- Outcome kinds of `Row.delete`. -/
inductive DelErr where
  | indexErr
  | mismatch
  | remote
  | attrErr
deriving DecidableEq, Repr

/-- Result of a `Row.delete` call: the error it raises (if any), the
worksheet afterwards, and how many remote `DeleteRow` calls were issued. -/
structure DelOut where
  err : Option DelErr
  ws : WS
  deleteCalls : Nat
deriving DecidableEq, Repr

/-- `Row.delete` (source lines 654-679) for the row numbered `n`, with the
list feed already fetched.  The list-feed entry is taken at index `n - 2`
(the list feed always assumes one header row), the internal row at
`n - nheaders - 1`; a value-set mismatch raises before any remote call;
on success the entry and the row are removed and rows are renumbered from
list index `n - 2` on. -/
def wsDelete (ws : WS) (n : Nat) (remoteOk : Bool) : DelOut :=
  match ws.listFeed.get? (n - 2) with
  | none => ⟨some .indexErr, ws, 0⟩
  | some e =>
    match ws.rows.get? (n - ws.nheaders - 1) with
    | none => ⟨some .indexErr, ws, 0⟩
    | some r =>
      if pySetEq (objVals r) (gdataVals e) then
        if remoteOk then
          let lf := ws.listFeed.eraseIdx (n - 2)
          let rows1 := ws.rows.eraseIdx (n - ws.nheaders - 1)
          let rn := renumGo rows1 (n - 2)
          ⟨if rn.2 then some .attrErr else none,
           ⟨ws.nheaders, ws.headerRows, rn.1, ws.maxCol, lf⟩, 1⟩
        else ⟨some .remote, ws, 1⟩
      else ⟨some .mismatch, ws, 0⟩

/-- A key passed to `Row.__getitem__` / `Row.__setitem__`: a Python int or
string. -/
inductive RowKey where
  | int (i : Nat)
  | str (s : String)
deriving DecidableEq, Repr

/-- The membership-then-index lookup `self.headers.index(key)` over the
header row's slots (first slot whose content equals the key). -/
def headerIndexOf (hdrs : List (Option CellV)) (s : String) : Option Nat :=
  hdrs.findIdx? (fun c =>
    match c with
    | some v => decide (cellText v = s)
    | none => false)

/-- Value of a nonempty all-digit decimal literal. -/
def digitsToNat (l : List Char) : Nat :=
  l.foldl (fun a c => a * 10 + (c.toNat - 48)) 0

/-- Restricted model of Python `int(key)` on strings: nonempty all-digit
strings (sign and whitespace forms are not needed by any claim). -/
def pyIntOfStr (s : String) : Option Nat :=
  if !s.data.isEmpty && s.data.all Char.isDigit then some (digitsToNat s.data)
  else none

/-- `Row.get_index_of_key` (source lines 681-688): an int key never equals
a header cell, so it is returned as the index; a string key resolves to the
first matching header position, else through `int(key)`, else `KeyError`
(`Except.error`). -/
def getIndexOfKey (hdrs : List (Option CellV)) : RowKey → Except Unit Nat
  | .int i => .ok i
  | .str s =>
    match headerIndexOf hdrs s with
    | some i => .ok i
    | none =>
      match pyIntOfStr s with
      | some n => .ok n
      | none => .error ()

/-- `Row.__getitem__` (source lines 690-695): resolve the key, then return
the slot when in range and `None` otherwise. -/
def rowGetItemM (hdrs : List (Option CellV)) (r : RowM) (k : RowKey) :
    Except Unit (Option CellV) :=
  match getIndexOfKey hdrs k with
  | .ok i => .ok (r.cells.getD i none)
  | .error e => .error e

/-- `num_tries` (source line 39). -/
def numTries : Nat := 5

/-- `retry_wait_time_seconds` (source line 40). -/
def retryWaitSeconds : Nat := 2

/-- The retry loop of the `UpdateCell` wrapper (source lines 102-113),
attempting `f i, f (i+1), ...` with `left` retries remaining after the
current attempt.  Returns the result, the number of attempts made, and the
number of `time.sleep(retry_wait_time_seconds)` delays taken. -/
def retryLoop (f : Nat → Except Unit α) (i : Nat) : Nat → Except Unit α × Nat × Nat
  | 0 => (f i, 1, 0)
  | left + 1 =>
    match f i with
    | .ok a => (.ok a, 1, 0)
    | .error _ =>
      let rest := retryLoop f (i + 1) left
      (rest.1, rest.2.1 + 1, rest.2.2 + 1)

/-- The `UpdateCell` wrapper: up to `numTries` attempts. -/
def updateCellM (f : Nat → Except Unit α) : Except Unit α × Nat × Nat :=
  retryLoop f 1 (numTries - 1)

/-- Every other remote wrapper (`GetWorksheetsFeed`, `AddWorksheet`,
`GetCellsFeed`, `GetListFeed`, `InsertRow`, source lines 86-100 and
115-117, and the direct `DeleteRow` call at line 668): one attempt, no
retry. -/
def oneShot (f : Nat → Except Unit α) : Except Unit α × Nat :=
  (f 1, 1)

/-- Helper for `stripGid`, working on the reversed character list: when the
string ends in `#gid=` followed by one or more digits, drop that suffix. -/
def stripGidRev (l : List Char) : List Char :=
  let ds := l.takeWhile Char.isDigit
  if ds.isEmpty then l
  else
    match l.drop ds.length with
    | '=' :: 'd' :: 'i' :: 'g' :: '#' :: rest => rest
    | _ => l

/-- `re.sub(r'\#gid=\d+$', '', key)` (source lines 138 and 194): strip a
trailing `#gid=<digits>` fragment.  The regex can match only the maximal
trailing digit run preceded by `#gid=` (a shorter digit suffix would be
preceded by a digit, not `=`), which is what the reversed-scan computes. -/
def stripGid (s : String) : String :=
  String.mk (stripGidRev s.data.reverse).reverse

/-- Word characters of the `\w` class (ASCII, as for Python 2 `str`). -/
def isWordChar (c : Char) : Bool :=
  c.isAlpha || c.isDigit || c == '_'

/-- The maximal `\w+` run at the front of a character list. -/
def wordRun (l : List Char) : List Char :=
  l.takeWhile isWordChar

/-- Scan for the rightmost case-insensitive `key=` occurrence followed by at
least one word character, returning the greedy `\w+` group after it — the
behaviour of the greedy `.*key=(\w+)` tail of `gdata_key_pattern`. -/
def scanKey : List Char → Option (List Char)
  | [] => none
  | c :: rest =>
    match scanKey rest with
    | some g => some g
    | none =>
      match c.toLower, rest with
      | 'k', e :: y :: q :: tail =>
        if e.toLower = 'e' && y.toLower = 'y' && q = '=' then
          let w := wordRun tail
          if w.isEmpty then none else some w
        else none
      | _, _ => none

/-- The anchored, case-insensitive `https?://` head of `gdata_key_pattern`. -/
def afterScheme (l : List Char) : Option (List Char) :=
  match l.map Char.toLower, l with
  | 'h' :: 't' :: 't' :: 'p' :: 's' :: ':' :: '/' :: '/' :: _, _ :: _ :: _ :: _ :: _ :: _ :: _ :: _ :: r => some r
  | 'h' :: 't' :: 't' :: 'p' :: ':' :: '/' :: '/' :: _, _ :: _ :: _ :: _ :: _ :: _ :: _ :: r => some r
  | _, _ => none

/-- `gdata_key_pattern = re.compile('https?://.*key=(\w+)', re.I)` (source
line 43) applied with `re.match`: the document id extracted from a public
spreadsheet URL. -/
def extractDocKey (s : String) : Option String :=
  match afterScheme s.data with
  | some r =>
    match scanKey r with
    | some g => some (String.mk g)
    | none => none
  | none => none

/-- Worksheet metadata returned by the worksheets feed. -/
structure WsInfo where
  id : String
  title : String
deriving DecidableEq, Repr

/-- `worksheets(key, titles)` (source lines 127-144): strip a trailing
`#gid=<digits>` fragment from the key, fetch the feed with the stripped
key, and keep the worksheets whose title passes the filter. -/
def worksheetsM (fetch : String → List WsInfo) (key : String)
    (titles : Option (List String)) : List WsInfo :=
  let k := stripGid key
  (fetch k).filter (fun w =>
    match titles with
    | none => true
    | some ts => ts.contains w.title)

/-- Shape invariant for keys produced by the `get_coltags` loop from slot
`i` on, with occurrence counter `cnt` at loop entry: each key is a fallback
tag from slot `i` or later, an unsuffixed candidate not yet counted, or a
suffixed candidate whose suffix exceeds the entry count of its base. -/
def KeyOk (k : String) (i : Nat) (cnt : List (String × Nat)) : Prop :=
  k ∈ blank_coltags.drop i ∨
  (k.data ≠ [] ∧ '_' ∉ k.data ∧ cntGet cnt k = 0) ∨
  (∃ b m, k = b ++ "_" ++ natStr m ∧ b.data ≠ [] ∧ '_' ∉ b.data ∧ cntGet cnt b < m)

theorem dropTrailingNone_getD_some {l : List (Option α)} {i : Nat} {x : α}
    (h : l.getD i none = some x) :
    (dropTrailingNone l).getD i none = some x := by
  induction l generalizing i with
  | nil => simp at h
  | cons a t ih =>
    cases i with
    | zero =>
      simp only [List.getD_cons_zero] at h
      subst h
      simp only [dropTrailingNone]
      cases hd : dropTrailingNone t <;> simp
    | succ j =>
      simp only [List.getD_cons_succ] at h
      have := ih h
      simp only [dropTrailingNone]
      cases hd : dropTrailingNone t with
      | nil => rw [hd] at this; simp at this
      | cons y ys => rw [hd] at this; simpa using this

theorem dropTrailingNone_getD_none {l : List (Option α)} {i : Nat}
    (h : l.getD i none = none) :
    (dropTrailingNone l).getD i none = none := by
  induction l generalizing i with
  | nil => simp [dropTrailingNone]
  | cons a t ih =>
    cases i with
    | zero =>
      simp only [List.getD_cons_zero] at h
      subst h
      simp only [dropTrailingNone]
      cases hd : dropTrailingNone t <;> simp
    | succ j =>
      simp only [List.getD_cons_succ] at h
      have := ih h
      simp only [dropTrailingNone]
      cases hd : dropTrailingNone t with
      | nil =>
        cases a <;> simp [List.getD]
      | cons y ys => rw [hd] at this; simpa using this

theorem padTo_length (l : List (Option α)) (n : Nat) :
    (padTo l n).length = max l.length n := by
  simp [padTo]
  omega

theorem setPad_getD_self (l : List (Option α)) (i : Nat) (v : Option α) :
    (setPad l i v).getD i none = v := by
  have hlen : i < (padTo l (i + 1)).length := by
    rw [padTo_length]; omega
  simp [setPad, List.getD_eq_getElem?_getD, List.getElem?_set_self (by simpa using hlen)]

theorem mem_drop_of_get? {l : List α} {i j : Nat} {x : α}
    (hij : i ≤ j) (h : l.get? j = some x) : x ∈ l.drop i := by
  induction l generalizing i j with
  | nil => simp at h
  | cons a t ih =>
    cases i with
    | zero => exact List.get?_mem h
    | succ i' =>
      cases j with
      | zero => omega
      | succ j' =>
        simp only [List.get?_cons_succ] at h
        simpa using ih (by omega) h

theorem not_mem_drop_succ_of_nodup {l : List α} (hn : l.Nodup) :
    ∀ {i : Nat} {x : α}, l.get? i = some x → x ∉ l.drop (i + 1) := by
  induction l with
  | nil => intro i x h; simp at h
  | cons a t ih =>
    rw [List.nodup_cons] at hn
    intro i x h
    cases i with
    | zero =>
      simp only [List.get?_cons_zero, Option.some.injEq] at h
      subst h
      simpa using hn.1
    | succ j =>
      simp only [List.get?_cons_succ] at h
      simpa using ih hn.2 h

theorem digitCh_inj : ∀ m, m < 10 → ∀ n, n < 10 → digitCh m = digitCh n → m = n := by
  decide

theorem natChars_ne_nil (n : Nat) : natChars n ≠ [] := by
  rw [natChars]
  split
  · simp
  · simp

theorem natChars_eq (n : Nat) :
    natChars n = if n < 10 then [digitCh n]
                 else natChars (n / 10) ++ [digitCh (n % 10)] := by
  rw [natChars]
  by_cases h : n < 10 <;> simp [h]

theorem natChars_inj : ∀ m n, natChars m = natChars n → m = n := by
  intro m
  induction m using Nat.strong_induction_on with
  | _ m ih =>
    intro n h
    rw [natChars_eq m, natChars_eq n] at h
    by_cases hm : m < 10 <;> by_cases hn : n < 10
    · simp only [hm, hn, if_true] at h
      exact digitCh_inj m hm n hn (by simpa using h)
    · simp only [hm, hn, if_true, if_false] at h
      have hl := congrArg List.length h
      have hlen := List.length_pos.mpr (natChars_ne_nil (n / 10))
      simp only [List.length_cons, List.length_nil, List.length_append] at hl
      omega
    · simp only [hm, hn, if_true, if_false] at h
      have hl := congrArg List.length h
      have hlen := List.length_pos.mpr (natChars_ne_nil (m / 10))
      simp only [List.length_cons, List.length_nil, List.length_append] at hl
      omega
    · simp only [hm, hn, if_false] at h
      have hrev := congrArg List.reverse h
      simp only [List.reverse_append, List.reverse_cons, List.reverse_nil,
        List.nil_append, List.cons_append] at hrev
      rw [List.cons.injEq] at hrev
      have hmod : m % 10 = n % 10 :=
        digitCh_inj _ (Nat.mod_lt _ (by omega)) _ (Nat.mod_lt _ (by omega)) hrev.1
      have hdiv : m / 10 = n / 10 :=
        ih (m / 10) (Nat.div_lt_self (by omega) (by omega)) (n / 10)
          (List.reverse_inj.mp hrev.2)
      omega

theorem und_split : ∀ (a b r s : List Char), '_' ∉ a → '_' ∉ b →
    a ++ '_' :: r = b ++ '_' :: s → a = b ∧ r = s := by
  intro a
  induction a with
  | nil =>
    intro b r s _ hb h
    cases b with
    | nil => simpa using h
    | cons c b' =>
      simp only [List.nil_append, List.cons_append, List.cons.injEq] at h
      exact absurd (h.1 ▸ List.mem_cons_self c b') hb
  | cons c a' ih =>
    intro b r s ha hb h
    cases b with
    | nil =>
      simp only [List.cons_append, List.nil_append, List.cons.injEq] at h
      exact absurd (h.1 ▸ List.mem_cons_self c a') (h.1 ▸ ha)
    | cons d b' =>
      simp only [List.cons_append, List.cons.injEq] at h
      have ha' : '_' ∉ a' := fun hm => ha (List.mem_cons_of_mem c hm)
      have hb' : '_' ∉ b' := fun hm => hb (List.mem_cons_of_mem d hm)
      obtain ⟨h1, h2⟩ := ih b' r s ha' hb' h.2
      exact ⟨by rw [h.1, h1], h2⟩

theorem cntGet_cntInc (l : List (String × Nat)) (k k' : String) :
    cntGet (cntInc l k) k' = if k' = k then cntGet l k + 1 else cntGet l k' := by
  induction l with
  | nil =>
    by_cases h : k' = k <;> simp [cntInc, cntGet, h]
  | cons p t ih =>
    by_cases hk : k = p.1
    · by_cases hk' : k' = p.1
      · have hkk : k' = k := by rw [hk', hk]
        simp [cntInc, cntGet, hk, hk', hkk]
      · have hkk : ¬ k' = k := fun h => hk' (h.trans hk)
        simp [cntInc, cntGet, hk, hk', hkk]
    · by_cases hk' : k' = p.1
      · have hkk : ¬ p.1 = k := fun h => hk h.symm
        simp [cntInc, cntGet, hk, hk', hkk]
      · simp [cntInc, cntGet, hk, hk', ih]

theorem cntGet_le_cntInc (l : List (String × Nat)) (k s : String) :
    cntGet l s ≤ cntGet (cntInc l k) s := by
  rw [cntGet_cntInc]
  by_cases h : s = k
  · simp [h]
  · simp [h]

theorem str_ne_empty_iff (s : String) : s ≠ "" ↔ s.data ≠ [] := by
  constructor
  · intro h hd
    exact h (String.ext hd)
  · intro h he
    exact h (by rw [he])

theorem stripTag_noUnd (s : String) : '_' ∉ (stripTag s).data := by
  intro h
  have : isTagChar '_' = true := (List.mem_filter.mp h).2
  simp [isTagChar] at this

theorem candAt_noUnd (cells : List (Option CellV)) (i : Nat) :
    '_' ∉ (candAt cells i).data := by
  unfold candAt
  cases cells.getD i none with
  | none => simp
  | some v =>
    by_cases h : cellText v = "" <;> simp [h, stripTag_noUnd]

theorem blank_length : blank_coltags.length = 29 := rfl

theorem blank_nodup : blank_coltags.Nodup := by decide

theorem blank_und : ∀ b ∈ blank_coltags, '_' ∈ b.data := by decide

theorem blank_head : ∀ b ∈ blank_coltags, b.data.head? = some '_' := by decide

theorem suffix_data (b s : String) :
    (b ++ "_" ++ s).data = b.data ++ '_' :: s.data := by
  rw [String.data_append, String.data_append]
  simp

theorem head?_suffix (b s : String) (h : b.data ≠ []) :
    (b ++ "_" ++ s).data.head? = b.data.head? := by
  rw [suffix_data]
  cases hb : b.data with
  | nil => exact absurd hb h
  | cons c t => simp

theorem noUnd_head {d : List Char} (h : '_' ∉ d) (hne : d ≠ []) :
    d.head? ≠ some '_' := by
  cases d with
  | nil => exact absurd rfl hne
  | cons c t =>
    simp only [List.head?, ne_eq, Option.some.injEq]
    intro he
    exact h (he ▸ List.mem_cons_self c t)

theorem keyOk_drop {k : String} {i : Nat} {cnt : List (String × Nat)}
    (h : KeyOk k (i + 1) cnt) : KeyOk k i cnt := by
  rcases h with h1 | h2 | h3
  · exact Or.inl (List.drop_subset_drop_left _ (by omega) h1)
  · exact Or.inr (Or.inl h2)
  · exact Or.inr (Or.inr h3)

theorem keyOk_cntInc {k cand : String} {j : Nat} {cnt : List (String × Nat)}
    (h : KeyOk k j (cntInc cnt cand)) : KeyOk k j cnt := by
  rcases h with h1 | ⟨h2a, h2b, h2c⟩ | ⟨b, m, he, hb1, hb2, hb3⟩
  · exact Or.inl h1
  · exact Or.inr (Or.inl ⟨h2a, h2b,
      Nat.le_zero.mp (h2c ▸ cntGet_le_cntInc cnt cand k)⟩)
  · exact Or.inr (Or.inr ⟨b, m, he, hb1, hb2,
      Nat.lt_of_le_of_lt (cntGet_le_cntInc cnt cand b) hb3⟩)

theorem coltagsGo_spec (cells : List (Option CellV)) :
    ∀ (fuel i : Nat) (cnt : List (String × Nat)),
      (∀ j, i ≤ j → j < i + fuel → candAt cells j = "" → j < 29) →
      ∃ l, coltagsGo cells i fuel cnt = .ok l ∧ l.length = fuel ∧ l.Nodup ∧
        ∀ k ∈ l, KeyOk k i cnt := by
  intro fuel
  induction fuel with
  | zero =>
    intro i cnt _
    exact ⟨[], rfl, rfl, List.nodup_nil, by simp⟩
  | succ fuel ih =>
    intro i cnt h
    by_cases hc : candAt cells i = ""
    · have hi29 : i < 29 := h i (Nat.le_refl i) (by omega) hc
      have hilen : i < blank_coltags.length := by rw [blank_length]; exact hi29
      obtain ⟨b, hb⟩ : ∃ b, blank_coltags.get? i = some b :=
        ⟨_, List.get?_eq_get hilen⟩
      obtain ⟨l', hgo, hlen, hnd, hkeys⟩ :=
        ih (i + 1) cnt (fun j h1 h2 h3 => h j (by omega) (by omega) h3)
      have hbmem : b ∈ blank_coltags := List.get?_mem hb
      refine ⟨b :: l', ?_, by simp [hlen], ?_, ?_⟩
      · simp [coltagsGo, hc, hgo]
        rw [← List.get?_eq_getElem?, hb]
      · rw [List.nodup_cons]
        refine ⟨?_, hnd⟩
        intro hbl
        rcases hkeys b hbl with h1 | ⟨_, hnu, _⟩ | ⟨b', m, heq, hbne, hbnu, _⟩
        · exact not_mem_drop_succ_of_nodup blank_nodup hb h1
        · exact hnu (blank_und b hbmem)
        · have hh : b.data.head? = some '_' := blank_head b hbmem
          rw [heq, head?_suffix b' (natStr m) hbne] at hh
          exact noUnd_head hbnu hbne hh
      · intro k hk
        rcases List.mem_cons.mp hk with hkb | hkl
        · exact Or.inl (hkb ▸ mem_drop_of_get? (Nat.le_refl i) hb)
        · exact keyOk_drop (hkeys k hkl)
    · have hnu : '_' ∉ (candAt cells i).data := candAt_noUnd cells i
      have hne : (candAt cells i).data ≠ [] := (str_ne_empty_iff _).mp hc
      obtain ⟨l', hgo, hlen, hnd, hkeys⟩ :=
        ih (i + 1) (cntInc cnt (candAt cells i))
          (fun j h1 h2 h3 => h j (by omega) (by omega) h3)
      by_cases h1 : 1 < cntGet cnt (candAt cells i) + 1
      · refine ⟨(candAt cells i ++ "_" ++ natStr (cntGet cnt (candAt cells i) + 1)) :: l',
          ?_, by simp [hlen], ?_, ?_⟩
        · simp [coltagsGo, hc, hgo, h1]
        · rw [List.nodup_cons]
          refine ⟨?_, hnd⟩
          intro hkl
          rcases hkeys _ hkl with hk1 | ⟨_, hnuk, _⟩ | ⟨b, m, heq, hbne, hbnu, hcnt⟩
          · have hmem : (candAt cells i ++ "_" ++ natStr (cntGet cnt (candAt cells i) + 1))
                ∈ blank_coltags := List.drop_subset _ _ hk1
            have hh := blank_head _ hmem
            rw [head?_suffix _ _ hne] at hh
            exact noUnd_head hnu hne hh
          · apply hnuk
            rw [suffix_data]
            exact List.mem_append_right _ (List.mem_cons_self _ _)
          · have hdata := congrArg String.data heq
            rw [suffix_data, suffix_data] at hdata
            obtain ⟨hbd, hmd⟩ := und_split _ _ _ _ hnu hbnu hdata
            have hbeq : candAt cells i = b := String.ext hbd
            have hmeq : cntGet cnt (candAt cells i) + 1 = m := natChars_inj _ _ hmd
            rw [← hbeq, cntGet_cntInc] at hcnt
            simp at hcnt
            omega
        · intro k hk
          rcases List.mem_cons.mp hk with hkb | hkl
          · exact Or.inr (Or.inr ⟨candAt cells i, cntGet cnt (candAt cells i) + 1,
              hkb, hne, hnu, by omega⟩)
          · exact keyOk_drop (keyOk_cntInc (hkeys k hkl))
      · have hz : cntGet cnt (candAt cells i) = 0 := by omega
        refine ⟨candAt cells i :: l', ?_, by simp [hlen], ?_, ?_⟩
        · simp [coltagsGo, hc, hgo, h1]
        · rw [List.nodup_cons]
          refine ⟨?_, hnd⟩
          intro hkl
          rcases hkeys _ hkl with hk1 | ⟨_, _, hz'⟩ | ⟨b, m, heq, hbne, hbnu, _⟩
          · exact hnu (blank_und _ (List.drop_subset _ _ hk1))
          · rw [cntGet_cntInc] at hz'
            simp at hz'
          · apply hnu
            rw [heq, suffix_data]
            exact List.mem_append_right _ (List.mem_cons_self _ _)
        · intro k hk
          rcases List.mem_cons.mp hk with hkb | hkl
          · exact Or.inr (Or.inl ⟨hkb ▸ hne, hkb ▸ hnu, hkb ▸ hz⟩)
          · exact keyOk_drop (keyOk_cntInc (hkeys k hkl))

/-- C1: for a `Row` cell write whose normalized new value differs from the
current cell value, the local cache reflects the new value if and only if
the remote `update_cell` call succeeds; on remote failure the error
propagates and the row and the worksheet's `_max_col` are unchanged.
(`remote` is the wrapper outcome; a successful service call echoes the
written value, hypothesis `hecho`.) -/
theorem setitem_coherent (r : RowM) (mc icol : Nat) (v : Option String)
    (remote : Except Unit String)
    (hdiff : rowTextAt r icol ≠ normVal v)
    (hecho : ∀ s, remote = Except.ok s → s = normVal v) :
    (rowTextAt (rowSetItem r mc icol v remote).row icol = normVal v ↔
      ∃ s, remote = Except.ok s) ∧
    ((∃ e, remote = Except.error e) →
      rowSetItem r mc icol v remote = ⟨true, r, mc, 1⟩) ∧
    (rowSetItem r mc icol v remote).updCalls = 1 := by
  have hpy : pyCellEq (normVal v) (rowGetCell r icol) = false := by
    unfold pyCellEq
    unfold rowTextAt at hdiff
    cases hcur : rowGetCell r icol with
    | none => rfl
    | some c =>
      rw [hcur] at hdiff
      simp only [decide_eq_false_iff_not]
      exact fun he => hdiff (by rw [he])
  cases remote with
  | error e =>
    have hout : rowSetItem r mc icol v (Except.error e) = ⟨true, r, mc, 1⟩ := by
      unfold rowSetItem
      simp [hpy]
    refine ⟨?_, fun _ => hout, by rw [hout]⟩
    rw [hout]
    simp only [iff_iff_implies_and_implies]
    constructor
    · intro hrt
      exact absurd hrt hdiff
    · rintro ⟨s, hs⟩
      exact absurd hs (by simp)
  | ok echo =>
    have hech : echo = normVal v := hecho echo rfl
    have hout : rowSetItem r mc icol v (Except.ok echo) =
        ⟨false, ⟨r.num,
          dropTrailingNone (setPad r.cells icol
            (if normVal v = "" then none
             else some (.cell echo r.num (icol + 1))))⟩,
         if mc < (dropTrailingNone (setPad r.cells icol
            (if normVal v = "" then none
             else some (.cell echo r.num (icol + 1))))).length
         then (dropTrailingNone (setPad r.cells icol
            (if normVal v = "" then none
             else some (.cell echo r.num (icol + 1))))).length
         else mc, 1⟩ := by
      unfold rowSetItem
      simp [hpy]
    refine ⟨?_, by rintro ⟨e, he⟩; exact absurd he (by simp), by rw [hout]⟩
    rw [hout]
    simp only [iff_iff_implies_and_implies]
    refine ⟨fun _ => ⟨echo, rfl⟩, fun _ => ?_⟩
    by_cases hv : normVal v = ""
    · have hset : (setPad r.cells icol
          (if normVal v = "" then none
           else some (CellV.cell echo r.num (icol + 1)))).getD icol none = none := by
        rw [if_pos hv]
        exact setPad_getD_self _ _ _
      unfold rowTextAt rowGetCell
      rw [dropTrailingNone_getD_none hset, hv]
    · have hset : (setPad r.cells icol
          (if normVal v = "" then none
           else some (CellV.cell echo r.num (icol + 1)))).getD icol none =
          some (CellV.cell echo r.num (icol + 1)) := by
        rw [if_neg hv]
        exact setPad_getD_self _ _ _
      unfold rowTextAt rowGetCell
      rw [dropTrailingNone_getD_some hset]
      exact hech

/-- C1 witness: writing `"31"` over `"30"` with a succeeding remote call. -/
theorem setitem_coherent_witness :
    rowTextAt ⟨2, [some (.cell "Ann" 2 1), some (.cell "30" 2 2)]⟩ 1 ≠ normVal (some "31") ∧
    (rowTextAt (rowSetItem ⟨2, [some (.cell "Ann" 2 1), some (.cell "30" 2 2)]⟩
        2 1 (some "31") (Except.ok "31")).row 1 = normVal (some "31") ↔
      ∃ s, (Except.ok "31" : Except Unit String) = Except.ok s) :=
  ⟨by decide,
   (setitem_coherent ⟨2, [some (.cell "Ann" 2 1), some (.cell "30" 2 2)]⟩
      2 1 (some "31") (Except.ok "31") (by decide)
      (fun s hs => by cases hs; rfl)).1⟩

/-- C8: a `Row` cell write whose normalized new value equals the current
cell's value is a pure no-op: zero RemoteStore calls, local cache
unchanged. -/
theorem setitem_noop (r : RowM) (mc icol : Nat) (v : Option String)
    (remote : Except Unit String) (c : CellV)
    (hcur : rowGetCell r icol = some c) (heq : cellText c = normVal v) :
    rowSetItem r mc icol v remote = ⟨false, r, mc, 0⟩ := by
  have hpy : pyCellEq (normVal v) (rowGetCell r icol) = true := by
    rw [hcur]
    simp [pyCellEq, heq]
  unfold rowSetItem
  simp [hpy]

/-- C8 witness: rewriting the value `"30"` already present. -/
theorem setitem_noop_witness :
    rowGetCell ⟨2, [some (.cell "30" 2 1)]⟩ 0 = some (.cell "30" 2 1) ∧
    rowSetItem ⟨2, [some (.cell "30" 2 1)]⟩ 1 0 (some "30") (Except.error ()) =
      ⟨false, ⟨2, [some (.cell "30" 2 1)]⟩, 1, 0⟩ :=
  ⟨rfl, setitem_noop ⟨2, [some (.cell "30" 2 1)]⟩ 1 0 (some "30")
    (Except.error ()) (.cell "30" 2 1) rfl rfl⟩

/-- C10: row reads are total over non-negative integer indices — an int key
resolves to itself, an out-of-range slot reads as `None` rather than
raising, a numeric-string key matching a header resolves to that header's
position, and a numeric-string key matching no header resolves through
`int(key)`. -/
theorem rowread_total (hdrs : List (Option CellV)) (r : RowM) (i : Nat) :
    rowGetItemM hdrs r (.int i) = .ok (r.cells.getD i none) ∧
    (r.cells.length ≤ i → rowGetItemM hdrs r (.int i) = .ok none) ∧
    (∀ s j, headerIndexOf hdrs s = some j →
      rowGetItemM hdrs r (.str s) = .ok (r.cells.getD j none)) ∧
    (∀ s, headerIndexOf hdrs s = none → pyIntOfStr s = some i →
      rowGetItemM hdrs r (.str s) = .ok (r.cells.getD i none)) := by
  have h0 : rowGetItemM hdrs r (.int i) = .ok (r.cells.getD i none) := rfl
  refine ⟨h0, ?_, ?_, ?_⟩
  · intro hlen
    rw [h0, List.getD_eq_getElem?_getD, List.getElem?_eq_none hlen]
    rfl
  · intro s j hj
    simp only [rowGetItemM, getIndexOfKey, hj]
  · intro s hs hint
    simp only [rowGetItemM, getIndexOfKey, hs, hint]

/-- C10 witness: reading index 5 of a row with no cells yields `None`. -/
theorem rowread_total_witness :
    (⟨2, ([] : List (Option CellV))⟩ : RowM).cells.length ≤ 5 ∧
    rowGetItemM [some (.cell "Name" 1 1)] ⟨2, []⟩ (.int 5) = .ok none :=
  ⟨by decide,
   (rowread_total [some (.cell "Name" 1 1)] ⟨2, []⟩ 5).2.1 (by decide)⟩

theorem retryLoop_success (f : Nat → Except Unit α) :
    ∀ (left i k : Nat) (a : α), i ≤ k → k ≤ i + left → f k = .ok a →
      (∀ j, i ≤ j → j < k → ∃ e, f j = .error e) →
      retryLoop f i left = (.ok a, k - i + 1, k - i) := by
  intro left
  induction left with
  | zero =>
    intro i k a h1 h2 h3 _
    have hik : k = i := by omega
    subst hik
    simp [retryLoop, h3]
  | succ left ih =>
    intro i k a h1 h2 h3 h4
    by_cases hik : k = i
    · subst hik
      simp [retryLoop, h3]
    · obtain ⟨e, he⟩ := h4 i (Nat.le_refl i) (by omega)
      have hrest := ih (i + 1) k a (by omega) (by omega) h3
        (fun j hj1 hj2 => h4 j (by omega) hj2)
      have hstep : retryLoop f i (left + 1) =
          ((retryLoop f (i + 1) left).1, (retryLoop f (i + 1) left).2.1 + 1,
           (retryLoop f (i + 1) left).2.2 + 1) := by
        simp [retryLoop, he]
      rw [hstep, hrest]
      show (Except.ok a, k - (i + 1) + 1 + 1, k - (i + 1) + 1) =
        (Except.ok a, k - i + 1, k - i)
      rw [show k - (i + 1) + 1 + 1 = k - i + 1 by omega,
          show k - (i + 1) + 1 = k - i by omega]

theorem retryLoop_allfail (f : Nat → Except Unit α) :
    ∀ (left i : Nat), (∀ j, i ≤ j → j ≤ i + left → ∃ e, f j = .error e) →
      retryLoop f i left = (f (i + left), left + 1, left) := by
  intro left
  induction left with
  | zero =>
    intro i _
    simp [retryLoop]
  | succ left ih =>
    intro i h
    obtain ⟨e, he⟩ := h i (Nat.le_refl i) (by omega)
    have hrest := ih (i + 1) (fun j hj1 hj2 => h j (by omega) (by omega))
    have hstep : retryLoop f i (left + 1) =
        ((retryLoop f (i + 1) left).1, (retryLoop f (i + 1) left).2.1 + 1,
         (retryLoop f (i + 1) left).2.2 + 1) := by
      simp [retryLoop, he]
    rw [hstep, hrest]
    show (f (i + 1 + left), left + 1 + 1, left + 1) =
      (f (i + (left + 1)), left + 1 + 1, left + 1)
    rw [show i + 1 + left = i + (left + 1) by omega]

/-- C9: only the single-cell update wrapper retries — `updateCellM` attempts
up to `numTries = 5` calls with a `retryWaitSeconds`-second sleep between
attempts (the third component counts the sleeps), returns the first
success, re-raises the last error after exhausting the attempts — while
every other primitive (fetch, insert, delete, add-worksheet) goes through
`oneShot`, issuing exactly one call. -/
theorem updatecell_retry_policy :
    (∀ (α : Type) (f : Nat → Except Unit α) (k : Nat) (a : α),
      1 ≤ k → k ≤ numTries → f k = Except.ok a →
      (∀ j, 1 ≤ j → j < k → ∃ e, f j = Except.error e) →
      updateCellM f = (Except.ok a, k, k - 1)) ∧
    (∀ (α : Type) (f : Nat → Except Unit α),
      (∀ j, 1 ≤ j → j ≤ numTries → ∃ e, f j = Except.error e) →
      updateCellM f = (f numTries, numTries, numTries - 1)) ∧
    (∀ (α : Type) (f : Nat → Except Unit α), oneShot f = (f 1, 1)) ∧
    numTries = 5 ∧ retryWaitSeconds = 2 := by
  refine ⟨?_, ?_, fun α f => rfl, rfl, rfl⟩
  · intro α f k a h1 h2 h3 h4
    have h5 : numTries = 5 := rfl
    have hle : k ≤ 1 + (numTries - 1) := by omega
    have hrun := retryLoop_success f (numTries - 1) 1 k a h1 hle h3 h4
    unfold updateCellM
    rw [hrun]
    show (Except.ok a, k - 1 + 1, k - 1) = (Except.ok a, k, k - 1)
    rw [show k - 1 + 1 = k by omega]
  · intro α f h
    have h5 : numTries = 5 := rfl
    have hrun := retryLoop_allfail f (numTries - 1) 1
      (fun j hj1 hj2 => h j hj1 (by omega))
    unfold updateCellM
    rw [hrun]
    show (f (1 + (numTries - 1)), numTries - 1 + 1, numTries - 1) =
      (f numTries, numTries, numTries - 1)
    rw [show 1 + (numTries - 1) = numTries from rfl,
        show numTries - 1 + 1 = numTries from rfl]

/-- C9 witness: a call failing twice then succeeding on the third attempt is
retried to success with two sleeps; a one-shot call stays single. -/
theorem updatecell_retry_policy_witness :
    updateCellM (fun j => if j = 3 then Except.ok 7 else Except.error ()) =
      (Except.ok 7, 3, 2) ∧
    oneShot (fun _ => (Except.error () : Except Unit Nat)) = (Except.error (), 1) :=
  ⟨updatecell_retry_policy.1 Nat (fun j => if j = 3 then Except.ok 7 else Except.error ())
      3 7 (by decide) (by decide) rfl
      (fun j hj1 hj2 => ⟨(), by interval_cases j <;> rfl⟩),
   updatecell_retry_policy.2.2.1 Nat (fun _ => Except.error ())⟩

theorem takeWhile_append_of_all {p : α → Bool} :
    ∀ (a : List α), (∀ x ∈ a, p x) → ∀ (c : α), p c = false → ∀ (t : List α),
      ((a ++ c :: t).takeWhile p) = a := by
  intro a
  induction a with
  | nil =>
    intro _ c hc t
    simp [List.takeWhile_cons, hc]
  | cons x a' ih =>
    intro h c hc t
    have hx : p x = true := h x (List.mem_cons_self x a')
    simp only [List.cons_append, List.takeWhile_cons, hx, if_true]
    rw [ih (fun y hy => h y (List.mem_cons_of_mem x hy)) c hc t]

theorem stripGid_strips (base d : String) (hne : d.data ≠ [])
    (hdig : ∀ c ∈ d.data, c.isDigit) :
    stripGid (base ++ "#gid=" ++ d) = base := by
  have hdata : (base ++ "#gid=" ++ d).data.reverse =
      d.data.reverse ++ '=' :: 'd' :: 'i' :: 'g' :: '#' :: base.data.reverse := by
    rw [String.data_append, String.data_append]
    show (base.data ++ ['#', 'g', 'i', 'd', '='] ++ d.data).reverse = _
    simp [List.reverse_append]
  have htw : ((d.data.reverse ++ '=' :: 'd' :: 'i' :: 'g' :: '#' :: base.data.reverse).takeWhile
      Char.isDigit) = d.data.reverse :=
    takeWhile_append_of_all d.data.reverse
      (fun x hx => hdig x (List.mem_reverse.mp hx)) '=' (by decide) _
  have hemp : d.data.reverse.isEmpty = false := by
    cases hd : d.data.reverse with
    | nil => exact absurd (by simpa using hd) hne
    | cons _ _ => rfl
  unfold stripGid stripGidRev
  simp only [hdata, htw, hemp, Bool.false_eq_true, if_false, List.drop_left]
  apply String.ext
  simp

/-- C7: worksheet lookup strips a trailing `#gid=<digits>` fragment from the
document key before using it, and on the spec's example URL the stripped
key's `gdata_key_pattern` match resolves to the document id `ABC123`. -/
theorem gid_fragment_stripped :
    (∀ (fetch : String → List WsInfo) (base d : String), d.data ≠ [] →
      (∀ c ∈ d.data, c.isDigit) →
      worksheetsM fetch (base ++ "#gid=" ++ d) none = fetch base) ∧
    stripGid "https://docs.example.com/.../ccc?key=ABC123#gid=7" =
      "https://docs.example.com/.../ccc?key=ABC123" ∧
    extractDocKey (stripGid "https://docs.example.com/.../ccc?key=ABC123#gid=7") =
      some "ABC123" := by
  refine ⟨?_, rfl, rfl⟩
  intro fetch base d hne hdig
  unfold worksheetsM
  rw [stripGid_strips base d hne hdig]
  simp

/-- C7 witness: stripping `#gid=7` from a concrete key before the fetch. -/
theorem gid_fragment_stripped_witness :
    ("7" : String).data ≠ [] ∧
    worksheetsM (fun k => [⟨k, "t"⟩]) ("abc" ++ "#gid=" ++ "7") none = [⟨"abc", "t"⟩] :=
  ⟨by decide,
   gid_fragment_stripped.1 (fun k => [⟨k, "t"⟩]) "abc" "7" (by decide) (by decide)⟩

/-- C5: `Row.delete` on a row whose locally-cached value set differs from
the list-feed entry's value set raises the consistency error before any
remote `delete_row` call, leaving the worksheet (cache and list feed)
unchanged; and no delete path ever issues more than one remote delete
call (the error is fatal, never retried). -/
theorem delete_mismatch_fatal (ws : WS) (n : Nat) (ro : Bool)
    (e : List (Option String)) (r : RowM)
    (hentry : ws.listFeed.get? (n - 2) = some e)
    (hrow : ws.rows.get? (n - ws.nheaders - 1) = some r)
    (hmis : pySetEq (objVals r) (gdataVals e) = false) :
    wsDelete ws n ro = ⟨some .mismatch, ws, 0⟩ ∧
    (∀ (ws' : WS) (n' : Nat) (ro' : Bool), (wsDelete ws' n' ro').deleteCalls ≤ 1) := by
  constructor
  · rw [List.get?_eq_getElem?] at hentry hrow
    simp [wsDelete, hentry, hrow, hmis]
  · intro ws' n' ro'
    unfold wsDelete
    cases hE : ws'.listFeed.get? (n' - 2) with
    | none => simp
    | some e' =>
      cases hR : ws'.rows.get? (n' - ws'.nheaders - 1) with
      | none => simp
      | some r' =>
        by_cases hm : pySetEq (objVals r') (gdataVals e')
        · cases ro' <;> simp [hm]
        · simp [hm]

/-- C5 witness: local row holds `{"x"}` while the list-feed entry holds
`{"y"}` — the delete refuses and changes nothing. -/
theorem delete_mismatch_fatal_witness :
    pySetEq (objVals ⟨2, [some (.cell "x" 2 1)]⟩) (gdataVals [some "y"]) = false ∧
    wsDelete ⟨1, [⟨1, [some (.cell "H" 1 1)]⟩], [⟨2, [some (.cell "x" 2 1)]⟩], 1,
        [[some "y"]]⟩ 2 true =
      ⟨some .mismatch,
       ⟨1, [⟨1, [some (.cell "H" 1 1)]⟩], [⟨2, [some (.cell "x" 2 1)]⟩], 1,
        [[some "y"]]⟩, 0⟩ :=
  ⟨by decide,
   (delete_mismatch_fatal
      ⟨1, [⟨1, [some (.cell "H" 1 1)]⟩], [⟨2, [some (.cell "x" 2 1)]⟩], 1, [[some "y"]]⟩
      2 true [some "y"] ⟨2, [some (.cell "x" 2 1)]⟩ rfl rfl (by decide)).1⟩

/-- C3 counterexample: on a worksheet whose first header row has one cell
`"Name"` but whose data reaches column 30, slot 29 needs a fallback beyond
the 29-entry table, so `get_coltags` raises `IndexError` instead of always
succeeding. -/
theorem coltags_index_error_cex :
    wsColtags (loadData 1 [⟨1, 1, "Name"⟩, ⟨2, 30, "x"⟩] []) = Except.error () ∧
    wsNumSlots (loadData 1 [⟨1, 1, "Name"⟩, ⟨2, 30, "x"⟩] []) = 30 := by
  exact ⟨rfl, rfl⟩

/-- C3 (amended): `get_coltags` succeeds — producing exactly
`max(max_col_seen, 29)` pairwise-unique keys in column order — provided
every slot at index ≥ 29 has header text that survives stripping; a slot at
index ≥ 29 with an empty candidate raises `IndexError` instead (see the
counterexample). -/
theorem coltags_unique (ws : WS) (tr : RowM)
    (htr : wsTagRow ws = some tr)
    (hfb : ∀ j, 29 ≤ j → j < wsNumSlots ws → candAt tr.cells j ≠ "") :
    ∃ l, wsColtags ws = .ok l ∧ l.length = wsNumSlots ws ∧ l.Nodup := by
  obtain ⟨l, hgo, hlen, hnd, _⟩ := coltagsGo_spec tr.cells (wsNumSlots ws) 0 []
    (fun j h1 h2 h3 => by
      by_cases h29 : j < 29
      · exact h29
      · exact absurd h3 (hfb j (by omega) (by omega)))
  refine ⟨l, ?_, hlen, hnd⟩
  unfold wsColtags
  rw [htr]
  exact hgo

/-- C3 witness: a two-column header with a duplicate name yields 29 unique
keys. -/
theorem coltags_unique_witness :
    wsTagRow (loadData 1 [⟨1, 1, "Name"⟩, ⟨1, 2, "Name"⟩] []) =
      some ⟨1, [some (.cell "Name" 1 1), some (.cell "Name" 1 2)]⟩ ∧
    ∃ l, wsColtags (loadData 1 [⟨1, 1, "Name"⟩, ⟨1, 2, "Name"⟩] []) = .ok l ∧
      l.length = wsNumSlots (loadData 1 [⟨1, 1, "Name"⟩, ⟨1, 2, "Name"⟩] []) ∧
      l.Nodup :=
  ⟨rfl,
   coltags_unique (loadData 1 [⟨1, 1, "Name"⟩, ⟨1, 2, "Name"⟩] [])
     ⟨1, [some (.cell "Name" 1 1), some (.cell "Name" 1 2)]⟩ rfl
     (fun j hj1 hj2 => by
       exact absurd (by decide : wsNumSlots (loadData 1 [⟨1, 1, "Name"⟩, ⟨1, 2, "Name"⟩] []) = 29)
         (by omega))⟩

/-- C6 counterexample: with two header rows (`"Name"` above `"Age"`),
`get_coltags` derives keys from the first sheet row, not from
`headers = header_rows[-1]`: the first key is `"Name"`, while the
spec-modelled last-header derivation yields `"Age"`. -/
theorem coltags_not_from_last_header_cex :
    (wsColtags (loadData 2 [⟨1, 1, "Name"⟩, ⟨2, 1, "Age"⟩, ⟨3, 1, "a"⟩] [])).map
      List.head? = Except.ok (some "Name") ∧
    (coltagsFromLastHeader (loadData 2 [⟨1, 1, "Name"⟩, ⟨2, 1, "Age"⟩, ⟨3, 1, "a"⟩] [])).map
      List.head? = Except.ok (some "Age") ∧
    wsColtags (loadData 2 [⟨1, 1, "Name"⟩, ⟨2, 1, "Age"⟩, ⟨3, 1, "a"⟩] []) ≠
      coltagsFromLastHeader (loadData 2 [⟨1, 1, "Name"⟩, ⟨2, 1, "Age"⟩, ⟨3, 1, "a"⟩] []) := by
  refine ⟨rfl, rfl, fun h => ?_⟩
  have ha : (wsColtags (loadData 2 [⟨1, 1, "Name"⟩, ⟨2, 1, "Age"⟩, ⟨3, 1, "a"⟩] [])).map
      List.head? = Except.ok (some "Name") := rfl
  have hb : (coltagsFromLastHeader (loadData 2 [⟨1, 1, "Name"⟩, ⟨2, 1, "Age"⟩, ⟨3, 1, "a"⟩] [])).map
      List.head? = Except.ok (some "Age") := rfl
  rw [h, hb] at ha
  simp at ha

/-- C6 (amended): column keys are derived from `get_row(1)`, the first
sheet row — which coincides with `headers = header_rows[-1]` exactly when
there is a single header row. -/
theorem coltags_from_first_header (ws : WS) (h1 : 1 ≤ ws.nheaders)
    (hlen : ws.headerRows.length = 1) :
    wsColtags ws = coltagsFromLastHeader ws := by
  unfold wsColtags coltagsFromLastHeader wsTagRow
  rw [if_pos h1]
  cases hhr : ws.headerRows with
  | nil => rw [hhr] at hlen; simp at hlen
  | cons r t =>
    cases t with
    | nil => simp
    | cons r2 t2 => rw [hhr] at hlen; simp at hlen

/-- C6 witness: a single-header worksheet, where both derivations agree. -/
theorem coltags_from_first_header_witness :
    (loadData 1 [⟨1, 1, "Name"⟩, ⟨2, 1, "a"⟩] []).headerRows.length = 1 ∧
    wsColtags (loadData 1 [⟨1, 1, "Name"⟩, ⟨2, 1, "a"⟩] []) =
      coltagsFromLastHeader (loadData 1 [⟨1, 1, "Name"⟩, ⟨2, 1, "a"⟩] []) :=
  ⟨rfl, coltags_from_first_header (loadData 1 [⟨1, 1, "Name"⟩, ⟨2, 1, "a"⟩] [])
    (by decide) rfl⟩

/-- C2 evidence: on a two-header worksheet whose rows satisfy the
contiguity invariant (row numbers 3,4,5,6) and whose list feed matches the
row being deleted, a successful `delete()` of row 4 renumbers from list
index `row-2 = 2` instead of the data index `row-nheaders-1 = 1`: the
result has row numbers `[3,5,5]`, violating
`data_rows[i].row_number = header_count + i + 1` (and leaving row 5's cell
coordinate undecremented). -/
theorem delete_renumber_bug :
    rowNumsOk (loadData 2 [⟨1, 1, "H1"⟩, ⟨2, 1, "H2"⟩, ⟨3, 1, "a"⟩, ⟨4, 1, "b"⟩,
      ⟨5, 1, "c"⟩, ⟨6, 1, "d"⟩] [[some "a"], [some "x"], [some "b"], [some "d"]]) = true ∧
    (wsDelete (loadData 2 [⟨1, 1, "H1"⟩, ⟨2, 1, "H2"⟩, ⟨3, 1, "a"⟩, ⟨4, 1, "b"⟩,
      ⟨5, 1, "c"⟩, ⟨6, 1, "d"⟩] [[some "a"], [some "x"], [some "b"], [some "d"]]) 4 true).err
      = none ∧
    (wsDelete (loadData 2 [⟨1, 1, "H1"⟩, ⟨2, 1, "H2"⟩, ⟨3, 1, "a"⟩, ⟨4, 1, "b"⟩,
      ⟨5, 1, "c"⟩, ⟨6, 1, "d"⟩] [[some "a"], [some "x"], [some "b"], [some "d"]]) 4 true).ws.rows.map
      RowM.num = [3, 5, 5] ∧
    rowNumsOk (wsDelete (loadData 2 [⟨1, 1, "H1"⟩, ⟨2, 1, "H2"⟩, ⟨3, 1, "a"⟩, ⟨4, 1, "b"⟩,
      ⟨5, 1, "c"⟩, ⟨6, 1, "d"⟩] [[some "a"], [some "x"], [some "b"], [some "d"]]) 4 true).ws
      = false := by
  exact ⟨rfl, rfl, rfl, rfl⟩

/-- C4 evidence: `append` with all-empty values never reaches `InsertRow`:
`RowData.get_insert_vals` assigns into the undefined local name
`insert_vals` (source line 626; the comment above it says it intends to
send a single space in the first column), so the call raises `NameError`
with zero insert calls and the cache unchanged — both for an empty value
list and for a list of empty strings. -/
theorem append_blank_name_error :
    wsAppend (loadData 1 [⟨1, 1, "Name"⟩, ⟨2, 1, "Ann"⟩] []) [] true
        (fun _ => Except.ok "") (Except.ok []) =
      ⟨some .name, loadData 1 [⟨1, 1, "Name"⟩, ⟨2, 1, "Ann"⟩] [], 0, 0⟩ ∧
    wsAppend (loadData 1 [⟨1, 1, "Name"⟩, ⟨2, 1, "Ann"⟩] []) [some "", none] true
        (fun _ => Except.ok "") (Except.ok []) =
      ⟨some .name, loadData 1 [⟨1, 1, "Name"⟩, ⟨2, 1, "Ann"⟩] [], 0, 0⟩ := by
  exact ⟨rfl, rfl⟩

end GdataArray
